import Mathlib

/-!
Verification development for the animated-code-example component
(`src/src/index.tsx`).

The TypeScript source consists of three parts that the claims address:

* `stepsForText` (lines 133–224): a tokenizer turning a text string into a
  list of `DeltaStep`s, with helpers `consumeWhitespace` and `consumePaste`;
* `lookupDelays` (lines 253–275) together with the tables `PASTE_DELAYS`
  and `DELAY_CHARACTERS` (lines 231–251): the delay policy;
* the playback loop `runScript` inside `AnimatedCodeExample`
  (lines 331–420): a sequential process that consumes the script's steps,
  mutating the three panes and sleeping between actions.

The embedding below models text as `List Char` / `String`, the tokenizer as
structurally (well-foundedly) recursive functions returning `Except` for the
two thrown errors, and the playback loop as a state-transition function that
additionally records the observable effects (sleeps, active-target signals,
pane mutations) as an event trace, in the exact order the source performs
them.
-/

namespace AnimatedCodeExample

/-- `DeltaStepKind` from the source: the kinds of a `DeltaStep`, i.e. every
`DemoStepKind` except `SLEEP` (TS `Exclude<DemoStepKind, DemoStepKind.SLEEP>`,
line 48). -/
inductive DeltaStepKind where
  | INSERT_TEXT
  | INSERT_NEWLINE
  | INSERT_PASTED_TEXT
  | SET_BROWSER_CONTENT
deriving DecidableEq, Repr

/-- `StepTarget` enum (lines 42–46). -/
inductive StepTarget where
  | EDITOR
  | REPL
  | BROWSER
deriving DecidableEq, Repr

/-- `DeltaStep` (lines 50–78).  The optional fields `startLineNumber` and
`startColumnIndex` become `Option Nat`; a TS field holding `undefined` is
`none`. -/
structure DeltaStep where
  kind : DeltaStepKind
  target : StepTarget
  startLineNumber : Option Nat := none
  startColumnIndex : Option Nat := none
  value : String
deriving DecidableEq, Repr

/-- `DemoScriptStep = DeltaStep | SleepStep` (lines 80–88); the sleep variant
carries only its `duration`. -/
inductive DemoScriptStep where
  | delta (step : DeltaStep)
  | sleepStep (duration : Nat)
deriving DecidableEq, Repr

/-- `DemoScript` (lines 93–118). -/
structure DemoScript where
  steps : List DemoScriptStep
  initialBrowserContent : String
  initialReplContent : String
  initialEditorContent : String
  editorLanguage : String
deriving DecidableEq, Repr

/-- The two errors thrown by `consumePaste` (lines 177 and 181). -/
inductive TokenizeError where
  | unterminatedPaste
  | newlineInPaste
deriving DecidableEq, Repr

/-- `consumeWhitespace` (lines 164–170): consume the maximal run of space
characters at the head of the remaining input.  Returns the consumed
characters and the rest of the input. -/
def consumeWhitespace : List Char → List Char × List Char
  | [] => ([], [])
  | c :: rest =>
    if c = ' ' then
      let p := consumeWhitespace rest
      (c :: p.1, p.2)
    else ([], c :: rest)

/-- `consumePaste` (lines 172–191): scan for the right paste delimiter,
throwing on end of input or on a newline; on success return the consumed
characters (the right delimiter is consumed but not included) and the rest of
the input. -/
def consumePaste (rightPasteDel : Char) : List Char → Except TokenizeError (List Char × List Char)
  | [] => .error .unterminatedPaste
  | peeked :: rest =>
    if peeked = '\n' then .error .newlineInPaste
    else if peeked = rightPasteDel then .ok ([], rest)
    else
      match consumePaste rightPasteDel rest with
      | .error e => .error e
      | .ok q => .ok (peeked :: q.1, q.2)

theorem consumeWhitespace_append (l : List Char) :
    (consumeWhitespace l).1 ++ (consumeWhitespace l).2 = l := by
  induction l with
  | nil => simp [consumeWhitespace]
  | cons c rest ih =>
    by_cases h : c = ' '
    · simp [consumeWhitespace, h] at ih ⊢
      exact ih
    · simp [consumeWhitespace, h]

theorem consumeWhitespace_spaces (l : List Char) :
    ∀ c ∈ (consumeWhitespace l).1, c = ' ' := by
  induction l with
  | nil => simp [consumeWhitespace]
  | cons c rest ih =>
    by_cases h : c = ' '
    · simp [consumeWhitespace, h]
      exact ih
    · simp [consumeWhitespace, h]

theorem consumeWhitespace_length (l : List Char) :
    (consumeWhitespace l).2.length ≤ l.length := by
  have h := congrArg List.length (consumeWhitespace_append l)
  simp only [List.length_append] at h
  omega

theorem consumePaste_ok (r : Char) (l : List Char) (s rem : List Char)
    (h : consumePaste r l = .ok (s, rem)) :
    l = s ++ r :: rem ∧ (∀ c ∈ s, c ≠ '\n' ∧ c ≠ r) ∧ r ≠ '\n' := by
  induction l generalizing s with
  | nil => simp [consumePaste] at h
  | cons c rest ih =>
    by_cases hn : c = '\n'
    · simp [consumePaste, hn] at h
    · by_cases hr : c = r
      · subst hr
        simp only [consumePaste, if_neg hn, if_pos rfl, Except.ok.injEq,
          Prod.mk.injEq] at h
        obtain ⟨hs, hrem⟩ := h
        exact ⟨rfl, by simp, hn⟩
      · simp only [consumePaste, if_neg hn, if_neg hr] at h
        match hq : consumePaste r rest with
        | .error e => rw [hq] at h; simp at h
        | .ok q =>
          rw [hq] at h
          simp only [Except.ok.injEq, Prod.mk.injEq] at h
          obtain ⟨hs, hrem⟩ := h
          obtain ⟨hl, hall, hrn⟩ := ih q.1 (by rw [hq, ← hrem])
          refine ⟨?_, ?_, hrn⟩
          · rw [← hs, hl]; rfl
          · intro x hx
            rw [← hs, List.mem_cons] at hx
            rcases hx with hx | hx
            · subst hx; exact ⟨hn, hr⟩
            · exact hall x hx

theorem consumePaste_length (r : Char) (l : List Char) (q : List Char × List Char)
    (h : consumePaste r l = .ok q) : q.2.length < l.length := by
  obtain ⟨hl, -, -⟩ := consumePaste_ok r l q.1 q.2 (by rw [h])
  rw [hl]
  simp
  omega

/-- Builds the step pushed by `addStep` (lines 156–162): target and kind as
given, value as given, no explicit position. -/
def mkStep (target : StepTarget) (kind : DeltaStepKind) (value : String) : DeltaStep :=
  { kind := kind, target := target, value := value }

/-- The scanning loop of `stepsForText` (lines 193–216): consume the next
character; `'\n'` emits an `INSERT_NEWLINE` step; a space absorbs the
following whitespace run into one `INSERT_TEXT` step; the left paste
delimiter scans a paste with `consumePaste` and emits one
`INSERT_PASTED_TEXT` step; any other character emits a one-character
`INSERT_TEXT` step. -/
def stepsForTextLoop (target : StepTarget) (leftPasteDel rightPasteDel : Char) :
    List Char → Except TokenizeError (List DeltaStep)
  | [] => .ok []
  | char :: rest =>
    if char = '\n' then
      match stepsForTextLoop target leftPasteDel rightPasteDel rest with
      | .error e => .error e
      | .ok steps => .ok (mkStep target .INSERT_NEWLINE "\n" :: steps)
    else if char = ' ' then
      match stepsForTextLoop target leftPasteDel rightPasteDel (consumeWhitespace rest).2 with
      | .error e => .error e
      | .ok steps =>
        .ok (mkStep target .INSERT_TEXT (String.mk (char :: (consumeWhitespace rest).1)) :: steps)
    else if char = leftPasteDel then
      match hp : consumePaste rightPasteDel rest with
      | .error e => .error e
      | .ok q =>
        match stepsForTextLoop target leftPasteDel rightPasteDel q.2 with
        | .error e => .error e
        | .ok steps => .ok (mkStep target .INSERT_PASTED_TEXT (String.mk q.1) :: steps)
    else
      match stepsForTextLoop target leftPasteDel rightPasteDel rest with
      | .error e => .error e
      | .ok steps => .ok (mkStep target .INSERT_TEXT (String.mk [char]) :: steps)
termination_by l => l.length
decreasing_by
  · simp only [List.length_cons]; omega
  · have h2 := consumeWhitespace_length rest
    simp only [List.length_cons]; omega
  · have := consumePaste_length rightPasteDel rest q hp
    simp only [List.length_cons]; omega
  · simp only [List.length_cons]; omega

/-- Unfolding equation for the scanning loop at a left paste delimiter when
`consumePaste` fails: the error propagates (the TS exception aborts
`stepsForText`). -/
theorem stepsForTextLoop_paste_error (target : StepTarget) (ldel rdel : Char)
    (rest : List Char) (hn1 : ¬ldel = '\n') (hn2 : ¬ldel = ' ') (e : TokenizeError)
    (hp : consumePaste rdel rest = .error e) :
    stepsForTextLoop target ldel rdel (ldel :: rest) = .error e := by
  simp only [stepsForTextLoop, if_neg hn1, if_neg hn2, eq_self_iff_true, ite_true]
  split
  · rename_i heq
    rw [hp] at heq
    cases heq
    rfl
  · rename_i heq
    rw [hp] at heq
    cases heq

/-- Unfolding equation for the scanning loop at a left paste delimiter when
`consumePaste` succeeds: one `INSERT_PASTED_TEXT` step is emitted and the
scan continues after the consumed right delimiter. -/
theorem stepsForTextLoop_paste_ok (target : StepTarget) (ldel rdel : Char)
    (rest : List Char) (hn1 : ¬ldel = '\n') (hn2 : ¬ldel = ' ')
    (q : List Char × List Char) (hp : consumePaste rdel rest = .ok q) :
    stepsForTextLoop target ldel rdel (ldel :: rest) =
      match stepsForTextLoop target ldel rdel q.2 with
      | .error e => .error e
      | .ok steps =>
        .ok (mkStep target .INSERT_PASTED_TEXT (String.mk q.1) :: steps) := by
  simp only [stepsForTextLoop, if_neg hn1, if_neg hn2, eq_self_iff_true, ite_true]
  split
  · rename_i heq
    rw [hp] at heq
    cases heq
  · rename_i heq
    rw [hp] at heq
    cases heq
    rfl

/-- `stepsForText` (lines 133–224): run the scanning loop over the text with
the given paste delimiters (default `«`/`»`), then, if the result is
non-empty, assign the supplied `startLineNumber`/`startColumnIndex` (possibly
`none`) to the first step (lines 218–221). -/
def stepsForText (text : String) (target : StepTarget)
    (startLineNumber startColumnIndex : Option Nat)
    (pasteDelimiters : Option (Char × Char)) : Except TokenizeError (List DeltaStep) :=
  match stepsForTextLoop target (pasteDelimiters.getD ('«', '»')).1
      (pasteDelimiters.getD ('«', '»')).2 text.data with
  | .error e => .error e
  | .ok [] => .ok []
  | .ok (first :: rest) =>
    .ok ({ first with startLineNumber := startLineNumber,
                      startColumnIndex := startColumnIndex } :: rest)

/-- The `Delays` interface (lines 226–229). -/
structure Delays where
  startDelay : Option Nat := none
  endDelay : Option Nat := none
deriving DecidableEq, Repr

/-- `PASTE_DELAYS` (lines 231–234). -/
def PASTE_DELAYS : Delays := { startDelay := some 300, endDelay := some 100 }

/-- The `DELAY_CHARACTERS` record (lines 236–251), as a partial map from a
(single-character) key to its `Delays` entry; `none` models absence of the
key. -/
def DELAY_CHARACTERS (c : Char) : Option Delays :=
  if c = ' ' then some { endDelay := some 110 }
  else if c = '\n' then some { endDelay := some 60 }
  else if c = '(' then some { startDelay := some 80, endDelay := some 60 }
  else if c = ')' then some { startDelay := some 80, endDelay := some 60 }
  else none

/-- `lookupDelays` (lines 253–275).  `INSERT_NEWLINE` returns the table entry
for `'\n'` (present in the table, so `getD` never falls back);
`INSERT_PASTED_TEXT` returns `PASTE_DELAYS`; otherwise a single-character
value is looked up in the table with default `{endDelay := 60}`, and any
other value yields the empty record. -/
def lookupDelays (step : DeltaStep) : Delays :=
  match step.kind with
  | .INSERT_NEWLINE => (DELAY_CHARACTERS '\n').getD {}
  | .INSERT_PASTED_TEXT => PASTE_DELAYS
  | _ =>
    match step.value.data with
    | [c] => (DELAY_CHARACTERS c).getD { endDelay := some 60 }
    | _ => {}

/-- The observable effects the playback loop performs, in order: `sleep`
calls, `setTarget` (the active-pane signal), `setBrowserContent`,
`executeEdits` on the editor (with the range's start line/column and the
inserted text), the two `deltaDecorations` calls (the `addition` highlight
and the `fake-cursor` decoration, each recorded with the decorated range's
start position and the value length), and `setReplContent`. -/
inductive PlayEvent where
  | sleepEv (ms : Nat)
  | setTargetEv (t : StepTarget)
  | setBrowserContentEv (content : String)
  | executeEditsEv (lineNumber columnIndex : Nat) (text : String)
  | additionDecorationEv (lineNumber columnIndex len : Nat)
  | fakeCursorDecorationEv (lineNumber columnIndex len : Nat)
  | setReplContentEv (content : String)
deriving DecidableEq, Repr

/-- `true` exactly for the events that mutate a pane (browser content, editor
edits and decorations, repl content); sleeps and the active-pane signal are
not pane mutations. -/
def PlayEvent.isPaneMutation : PlayEvent → Bool
  | .setBrowserContentEv _ => true
  | .executeEditsEv _ _ _ => true
  | .additionDecorationEv _ _ _ => true
  | .fakeCursorDecorationEv _ _ _ => true
  | .setReplContentEv _ => true
  | _ => false

/-- `true` exactly for the active-pane signal `setTargetEv`. -/
def PlayEvent.isTargetSignal : PlayEvent → Bool
  | .setTargetEv _ => true
  | _ => false

/-- The mutable state of one playback run (lines 340–344): the cursor
`lineNumber`/`columnIndex`, the accumulated repl buffer `newRepl`, and
`currentTarget` (initially `undefined`, i.e. `none`). -/
structure PlayState where
  lineNumber : Nat
  columnIndex : Nat
  newRepl : String
  currentTarget : Option StepTarget
deriving DecidableEq, Repr

/-- The initial playback state (lines 340–344): cursor at `(1, 1)`, repl
buffer seeded from `initialReplContent`, no current target. -/
def initPlayState (script : DemoScript) : PlayState :=
  { lineNumber := 1
    columnIndex := 1
    newRepl := script.initialReplContent
    currentTarget := none }

/-- `changeTarget` (lines 346–352): if the step's target differs from
`currentTarget`, update it, signal the active pane and sleep 100ms; else do
nothing. -/
def changeTarget (st : PlayState) (step : DeltaStep) : PlayState × List PlayEvent :=
  if st.currentTarget = some step.target then (st, [])
  else ({ st with currentTarget := some step.target },
        [.setTargetEv step.target, .sleepEv 100])

/-- The sleep performed for an optional delay (lines 370–372 and 409–411):
one `sleepEv` when the delay is present, nothing otherwise. -/
def delayEvents : Option Nat → List PlayEvent
  | some d => [.sleepEv d]
  | none => []

/-- One iteration of the `for` loop in `runScript` (lines 354–413): returns
the updated state and the events the iteration performs, in order.
`SLEEP` sleeps for the duration; `SET_BROWSER_CONTENT` switches target,
clears the browser pane, sleeps 500ms, sets the content and sleeps 200ms;
the remaining kinds switch target, sleep the policy's start delay, mutate
the editor pane (edit at the cursor range, then the `addition` decoration
when the value is non-blank, then the fake-cursor decoration, then the
cursor update) or append to the repl buffer, and sleep the policy's end
delay. -/
def applyStep (st : PlayState) (step : DemoScriptStep) : PlayState × List PlayEvent :=
  match step with
  | .sleepStep d => (st, [.sleepEv d])
  | .delta s =>
    match s.kind with
    | .SET_BROWSER_CONTENT =>
      let p := changeTarget st s
      (p.1, p.2 ++ [.setBrowserContentEv "", .sleepEv 500,
                    .setBrowserContentEv s.value, .sleepEv 200])
    | _ =>
      let p := changeTarget st s
      let delays := lookupDelays s
      if s.target = .EDITOR then
        let lineNumber := s.startLineNumber.getD p.1.lineNumber
        let columnIndex := s.startColumnIndex.getD p.1.columnIndex
        let editEvs :=
          PlayEvent.executeEditsEv lineNumber columnIndex s.value ::
          ((if s.value.trim.length ≠ 0 then
              [.additionDecorationEv lineNumber columnIndex s.value.length] else []) ++
           [.fakeCursorDecorationEv lineNumber columnIndex s.value.length])
        let st2 :=
          if s.kind = .INSERT_NEWLINE then
            { p.1 with lineNumber := lineNumber + 1, columnIndex := 1 }
          else
            { p.1 with lineNumber := lineNumber,
                       columnIndex := columnIndex + s.value.length }
        (st2, p.2 ++ delayEvents delays.startDelay ++ editEvs ++
              delayEvents delays.endDelay)
      else
        let newRepl := p.1.newRepl ++ s.value
        ({ p.1 with newRepl := newRepl },
         p.2 ++ delayEvents delays.startDelay ++ [.setReplContentEv newRepl] ++
           delayEvents delays.endDelay)

/-- The `for` loop of `runScript` over a list of remaining steps, threading
the playback state and concatenating each iteration's events. -/
def runScriptFrom (st : PlayState) : List DemoScriptStep → PlayState × List PlayEvent
  | [] => (st, [])
  | step :: rest =>
    let p := applyStep st step
    let q := runScriptFrom p.1 rest
    (q.1, p.2 ++ q.2)

/-- `runScript` (lines 332–415): the initial 300ms settle sleep, then the
loop over the script's steps from the initial state. -/
def runScript (script : DemoScript) : PlayState × List PlayEvent :=
  let r := runScriptFrom (initPlayState script) script.steps
  (r.1, .sleepEv 300 :: r.2)

@[simp] theorem mkStep_kind (t : StepTarget) (k : DeltaStepKind) (v : String) :
    (mkStep t k v).kind = k := rfl

@[simp] theorem mkStep_target (t : StepTarget) (k : DeltaStepKind) (v : String) :
    (mkStep t k v).target = t := rfl

@[simp] theorem mkStep_value (t : StepTarget) (k : DeltaStepKind) (v : String) :
    (mkStep t k v).value = v := rfl

@[simp] theorem mkStep_startLineNumber (t : StepTarget) (k : DeltaStepKind) (v : String) :
    (mkStep t k v).startLineNumber = none := rfl

@[simp] theorem mkStep_startColumnIndex (t : StepTarget) (k : DeltaStepKind) (v : String) :
    (mkStep t k v).startColumnIndex = none := rfl

@[simp] theorem data_newline_lit : ("\n" : String).data = ['\n'] := rfl

/-- On input containing no left paste delimiter the scanning loop succeeds,
and the characters of the produced steps' values concatenate back to the
input. -/
theorem stepsForTextLoop_values (target : StepTarget) (ldel rdel : Char) (cs : List Char)
    (hnol : ∀ c ∈ cs, c ≠ ldel) :
    ∃ steps, stepsForTextLoop target ldel rdel cs = .ok steps ∧
      (steps.map (fun s => s.value.data)).flatten = cs := by
  induction cs using stepsForTextLoop.induct target ldel rdel with
  | case1 => exact ⟨[], by simp [stepsForTextLoop], rfl⟩
  | case2 rest e hx ih =>
    obtain ⟨steps, hok, -⟩ := ih fun c hc => hnol c (List.mem_cons_of_mem _ hc)
    rw [hok] at hx
    exact absurd hx (by simp)
  | case3 rest steps0 hx ih =>
    obtain ⟨steps, hok, hval⟩ := ih fun c hc => hnol c (List.mem_cons_of_mem _ hc)
    refine ⟨mkStep target .INSERT_NEWLINE "\n" :: steps, ?_, ?_⟩
    · simp [stepsForTextLoop, hok]
    · simp [hval]
  | case4 rest e hx hne ih =>
    obtain ⟨steps, hok, -⟩ := ih fun c hc => hnol c (by
      apply List.mem_cons_of_mem
      rw [← consumeWhitespace_append rest]
      exact List.mem_append_right _ hc)
    rw [hok] at hx
    exact absurd hx (by simp)
  | case5 rest steps0 hx hne ih =>
    obtain ⟨steps, hok, hval⟩ := ih fun c hc => hnol c (by
      apply List.mem_cons_of_mem
      rw [← consumeWhitespace_append rest]
      exact List.mem_append_right _ hc)
    refine ⟨mkStep target .INSERT_TEXT (String.mk (' ' :: (consumeWhitespace rest).1)) :: steps,
      ?_, ?_⟩
    · simp [stepsForTextLoop, hok]
    · simp only [List.map_cons, List.flatten_cons, mkStep_value]
      rw [hval]
      show (' ' :: (consumeWhitespace rest).1) ++ (consumeWhitespace rest).2 = ' ' :: rest
      rw [List.cons_append, consumeWhitespace_append rest]
  | case6 rest e hp hne1 hne2 =>
    exact absurd rfl (hnol ldel (List.mem_cons_self _ _))
  | case7 rest q hp e hx hne1 hne2 ih =>
    exact absurd rfl (hnol ldel (List.mem_cons_self _ _))
  | case8 rest q hp steps0 hx hne1 hne2 ih =>
    exact absurd rfl (hnol ldel (List.mem_cons_self _ _))
  | case9 char rest hn1 hn2 hn3 e hx ih =>
    obtain ⟨steps, hok, -⟩ := ih fun c hc => hnol c (List.mem_cons_of_mem _ hc)
    rw [hok] at hx
    exact absurd hx (by simp)
  | case10 char rest hn1 hn2 hn3 steps0 hx ih =>
    obtain ⟨steps, hok, hval⟩ := ih fun c hc => hnol c (List.mem_cons_of_mem _ hc)
    refine ⟨mkStep target .INSERT_TEXT (String.mk [char]) :: steps, ?_, ?_⟩
    · simp [stepsForTextLoop, hn1, hn2, hn3, hok]
    · simp only [List.map_cons, List.flatten_cons, mkStep_value]
      rw [hval]
      rfl

/-- C1: for every input text containing neither the left nor the right paste
delimiter character, `stepsForText` succeeds, and concatenating the `value`
field of every produced step, in order, equals the original input text
exactly. -/
theorem C1_concat_values_reconstructs_input (text : String) (target : StepTarget)
    (sl sc : Option Nat) (dels : Option (Char × Char))
    (hno : ∀ c ∈ text.data,
      c ≠ (dels.getD ('«', '»')).1 ∧ c ≠ (dels.getD ('«', '»')).2) :
    ∃ steps, stepsForText text target sl sc dels = .ok steps ∧
      String.join (steps.map DeltaStep.value) = text := by
  obtain ⟨steps, hok, hval⟩ :=
    stepsForTextLoop_values target (dels.getD ('«', '»')).1 (dels.getD ('«', '»')).2
      text.data (fun c hc => (hno c hc).1)
  cases steps with
  | nil =>
    refine ⟨[], by simp [stepsForText, hok], ?_⟩
    apply String.ext
    simp only [List.map_nil, List.flatten_nil] at hval
    simpa using hval
  | cons first restS =>
    refine ⟨{ first with startLineNumber := sl, startColumnIndex := sc } :: restS,
      by simp [stepsForText, hok], ?_⟩
    apply String.ext
    rw [String.data_join]
    simpa [List.map_map, Function.comp] using hval

/-- Witness for C1 at the concrete delimiter-free input `"ab c"`. -/
theorem C1_witness :
    ∃ steps, stepsForText "ab c" .EDITOR none none none = .ok steps ∧
      String.join (steps.map DeltaStep.value) = "ab c" :=
  C1_concat_values_reconstructs_input "ab c" .EDITOR none none none (by decide)

/-- Every step built by the scanning loop carries no explicit position: the
loop's `addStep` sets only kind, target and value. -/
theorem stepsForTextLoop_positions (target : StepTarget) (ldel rdel : Char) (cs : List Char) :
    ∀ steps, stepsForTextLoop target ldel rdel cs = .ok steps →
      ∀ s ∈ steps, s.startLineNumber = none ∧ s.startColumnIndex = none := by
  induction cs using stepsForTextLoop.induct target ldel rdel with
  | case1 =>
    intro steps hok s hs
    simp [stepsForTextLoop] at hok
    subst hok
    simp at hs
  | case2 rest e hx ih =>
    intro steps hok
    simp [stepsForTextLoop, hx] at hok
  | case3 rest steps0 hx ih =>
    intro steps hok s hs
    simp [stepsForTextLoop, hx] at hok
    subst hok
    rw [List.mem_cons] at hs
    rcases hs with hs | hs
    · subst hs; exact ⟨rfl, rfl⟩
    · exact ih steps0 hx s hs
  | case4 rest e hx hne ih =>
    intro steps hok
    simp [stepsForTextLoop, hx] at hok
  | case5 rest steps0 hx hne ih =>
    intro steps hok s hs
    simp [stepsForTextLoop, hx] at hok
    subst hok
    rw [List.mem_cons] at hs
    rcases hs with hs | hs
    · subst hs; exact ⟨rfl, rfl⟩
    · exact ih steps0 hx s hs
  | case6 rest e hp hn1 hn2 =>
    intro steps hok
    rw [stepsForTextLoop_paste_error target ldel rdel rest hn1 hn2 e hp] at hok
    exact absurd hok (by simp)
  | case7 rest q hp e hx hn1 hn2 ih =>
    intro steps hok
    rw [stepsForTextLoop_paste_ok target ldel rdel rest hn1 hn2 q hp, hx] at hok
    exact absurd hok (by simp)
  | case8 rest q hp steps0 hx hn1 hn2 ih =>
    intro steps hok s hs
    rw [stepsForTextLoop_paste_ok target ldel rdel rest hn1 hn2 q hp, hx] at hok
    simp only [Except.ok.injEq] at hok
    subst hok
    rw [List.mem_cons] at hs
    rcases hs with hs | hs
    · subst hs; exact ⟨rfl, rfl⟩
    · exact ih steps0 hx s hs
  | case9 char rest hn1 hn2 hn3 e hx ih =>
    intro steps hok
    simp [stepsForTextLoop, hn1, hn2, hn3, hx] at hok
  | case10 char rest hn1 hn2 hn3 steps0 hx ih =>
    intro steps hok s hs
    simp [stepsForTextLoop, hn1, hn2, hn3, hx] at hok
    subst hok
    rw [List.mem_cons] at hs
    rcases hs with hs | hs
    · subst hs; exact ⟨rfl, rfl⟩
    · exact ih steps0 hx s hs

/-- C5: whenever `stepsForText` returns a non-empty sequence, the supplied
`startLineNumber`/`startColumnIndex` arguments (possibly `none`) are assigned
to the first element only, and every other element carries no explicit
position. -/
theorem C5_positions_only_on_first (text : String) (target : StepTarget)
    (sl sc : Option Nat) (dels : Option (Char × Char))
    (first : DeltaStep) (rest : List DeltaStep)
    (hok : stepsForText text target sl sc dels = .ok (first :: rest)) :
    first.startLineNumber = sl ∧ first.startColumnIndex = sc ∧
      ∀ s ∈ rest, s.startLineNumber = none ∧ s.startColumnIndex = none := by
  rw [stepsForText] at hok
  cases hloop : stepsForTextLoop target (dels.getD ('«', '»')).1
      (dels.getD ('«', '»')).2 text.data with
  | error e => rw [hloop] at hok; exact absurd hok (by simp)
  | ok steps =>
    rw [hloop] at hok
    cases steps with
    | nil => simp at hok
    | cons f r =>
      simp only [Except.ok.injEq, List.cons.injEq] at hok
      obtain ⟨hfirst, hrest⟩ := hok
      refine ⟨by rw [← hfirst], by rw [← hfirst], ?_⟩
      intro s hs
      refine stepsForTextLoop_positions target _ _ text.data (f :: r) hloop s ?_
      rw [hrest]
      exact List.mem_cons_of_mem _ hs

/-- Witness for C5 at `stepsForText "ab" EDITOR (some 3) (some 5)`: the first
step carries line 3 / column 5 and the second step carries neither. -/
theorem C5_witness :
    ({ kind := .INSERT_TEXT, target := .EDITOR, startLineNumber := some 3,
       startColumnIndex := some 5, value := "a" } : DeltaStep).startLineNumber = some 3 ∧
    ({ kind := .INSERT_TEXT, target := .EDITOR, startLineNumber := some 3,
       startColumnIndex := some 5, value := "a" } : DeltaStep).startColumnIndex = some 5 ∧
    ∀ s ∈ [({ kind := .INSERT_TEXT, target := .EDITOR, startLineNumber := none,
              startColumnIndex := none, value := "b" } : DeltaStep)],
      s.startLineNumber = none ∧ s.startColumnIndex = none :=
  C5_positions_only_on_first "ab" .EDITOR (some 3) (some 5) none
    { kind := .INSERT_TEXT, target := .EDITOR, startLineNumber := some 3,
      startColumnIndex := some 5, value := "a" }
    [{ kind := .INSERT_TEXT, target := .EDITOR, startLineNumber := none,
       startColumnIndex := none, value := "b" }]
    (by simp [stepsForText, stepsForTextLoop, mkStep])

@[simp] theorem withPositions_kind (s : DeltaStep) (a b : Option Nat) :
    ({ s with startLineNumber := a, startColumnIndex := b } : DeltaStep).kind = s.kind := rfl

@[simp] theorem withPositions_target (s : DeltaStep) (a b : Option Nat) :
    ({ s with startLineNumber := a, startColumnIndex := b } : DeltaStep).target = s.target := rfl

@[simp] theorem withPositions_value (s : DeltaStep) (a b : Option Nat) :
    ({ s with startLineNumber := a, startColumnIndex := b } : DeltaStep).value = s.value := rfl

/-- On accepted input the scanning loop emits exactly one `INSERT_NEWLINE`
step per newline character of the input, and every `INSERT_NEWLINE` step it
emits has value `"\n"`. -/
theorem stepsForTextLoop_newlines (target : StepTarget) (ldel rdel : Char) (cs : List Char) :
    ∀ steps, stepsForTextLoop target ldel rdel cs = .ok steps →
      steps.countP (fun s => decide (s.kind = DeltaStepKind.INSERT_NEWLINE))
          = cs.count '\n' ∧
        ∀ s ∈ steps, s.kind = DeltaStepKind.INSERT_NEWLINE → s.value = "\n" := by
  induction cs using stepsForTextLoop.induct target ldel rdel with
  | case1 =>
    intro steps hok
    simp [stepsForTextLoop] at hok
    subst hok
    simp
  | case2 rest e hx ih =>
    intro steps hok
    simp [stepsForTextLoop, hx] at hok
  | case3 rest steps0 hx ih =>
    intro steps hok
    simp [stepsForTextLoop, hx] at hok
    subst hok
    obtain ⟨hcount, hval⟩ := ih steps0 hx
    constructor
    · simp [List.countP_cons, hcount, mkStep]
    · intro s hs hk
      rw [List.mem_cons] at hs
      rcases hs with hs | hs
      · subst hs; rfl
      · exact hval s hs hk
  | case4 rest e hx hne ih =>
    intro steps hok
    simp [stepsForTextLoop, hx] at hok
  | case5 rest steps0 hx hne ih =>
    intro steps hok
    simp [stepsForTextLoop, hx] at hok
    subst hok
    obtain ⟨hcount, hval⟩ := ih steps0 hx
    have hws : List.count '\n' (consumeWhitespace rest).1 = 0 := by
      rw [List.count_eq_zero]
      intro hmem
      have := consumeWhitespace_spaces rest '\n' hmem
      simp at this
    have hsplit : List.count '\n' rest
        = List.count '\n' (consumeWhitespace rest).1
          + List.count '\n' (consumeWhitespace rest).2 := by
      conv_lhs => rw [← consumeWhitespace_append rest]
      exact List.count_append _ _ _
    constructor
    · simp only [List.countP_cons, mkStep_kind]
      rw [hcount]
      simp only [List.count_cons]
      rw [hsplit, hws]
      simp
    · intro s hs hk
      rw [List.mem_cons] at hs
      rcases hs with hs | hs
      · subst hs; simp [mkStep] at hk
      · exact hval s hs hk
  | case6 rest e hp hn1 hn2 =>
    intro steps hok
    rw [stepsForTextLoop_paste_error target ldel rdel rest hn1 hn2 e hp] at hok
    exact absurd hok (by simp)
  | case7 rest q hp e hx hn1 hn2 ih =>
    intro steps hok
    rw [stepsForTextLoop_paste_ok target ldel rdel rest hn1 hn2 q hp, hx] at hok
    exact absurd hok (by simp)
  | case8 rest q hp steps0 hx hn1 hn2 ih =>
    intro steps hok
    rw [stepsForTextLoop_paste_ok target ldel rdel rest hn1 hn2 q hp, hx] at hok
    simp only [Except.ok.injEq] at hok
    subst hok
    obtain ⟨hcount, hval⟩ := ih steps0 hx
    obtain ⟨hdecomp, hclean, hrdel⟩ := consumePaste_ok rdel rest q.1 q.2 (by rw [hp])
    have hq1 : List.count '\n' q.1 = 0 := by
      rw [List.count_eq_zero]
      intro hmem
      exact absurd rfl (hclean '\n' hmem).1
    constructor
    · simp only [List.countP_cons, mkStep_kind]
      rw [hcount]
      simp only [List.count_cons, hdecomp, List.count_append, List.count_cons, hq1]
      have : ('\n' == ldel) = false := by
        simp only [beq_eq_false_iff_ne, ne_eq]
        intro h
        exact hn1 h.symm
      have hrd : ('\n' == rdel) = false := by
        simp only [beq_eq_false_iff_ne, ne_eq]
        intro h
        exact hrdel h.symm
      simp [this, hrd, hrdel, hn1]
    · intro s hs hk
      rw [List.mem_cons] at hs
      rcases hs with hs | hs
      · subst hs; simp [mkStep] at hk
      · exact hval s hs hk
  | case9 char rest hn1 hn2 hn3 e hx ih =>
    intro steps hok
    simp [stepsForTextLoop, hn1, hn2, hn3, hx] at hok
  | case10 char rest hn1 hn2 hn3 steps0 hx ih =>
    intro steps hok
    simp [stepsForTextLoop, hn1, hn2, hn3, hx] at hok
    subst hok
    obtain ⟨hcount, hval⟩ := ih steps0 hx
    constructor
    · simp only [List.countP_cons, mkStep_kind]
      rw [hcount]
      simp only [List.count_cons]
      have : ('\n' == char) = false := by
        simp only [beq_eq_false_iff_ne, ne_eq]
        intro h
        exact hn1 h.symm
      simp [this, hn1]
    · intro s hs hk
      rw [List.mem_cons] at hs
      rcases hs with hs | hs
      · subst hs; simp [mkStep] at hk
      · exact hval s hs hk

/-- C9 counterexample: the claim quantifies over inputs "accepted or
rejected" by `stepsForText`, but the rejected input `"\n«"` contains one
newline character and yields no step sequence at all — in particular no
`INSERT_NEWLINE` step. -/
theorem C9_counterexample :
    stepsForText "\n«" .EDITOR none none none = .error .unterminatedPaste ∧
      ("\n«" : String).data.count '\n' = 1 := by
  constructor
  · simp [stepsForText, stepsForTextLoop, consumePaste]
  · decide

/-- C9 (amended to accepted inputs): whenever `stepsForText` succeeds, the
output contains exactly one `INSERT_NEWLINE` step per newline character of
the input, and every `INSERT_NEWLINE` step has value `"\n"`. -/
theorem C9_newline_steps (text : String) (target : StepTarget) (sl sc : Option Nat)
    (dels : Option (Char × Char)) (steps : List DeltaStep)
    (hok : stepsForText text target sl sc dels = .ok steps) :
    steps.countP (fun s => decide (s.kind = DeltaStepKind.INSERT_NEWLINE))
        = text.data.count '\n' ∧
      ∀ s ∈ steps, s.kind = DeltaStepKind.INSERT_NEWLINE → s.value = "\n" := by
  rw [stepsForText] at hok
  cases hloop : stepsForTextLoop target (dels.getD ('«', '»')).1
      (dels.getD ('«', '»')).2 text.data with
  | error e => rw [hloop] at hok; exact absurd hok (by simp)
  | ok steps0 =>
    rw [hloop] at hok
    obtain ⟨hcount, hval⟩ :=
      stepsForTextLoop_newlines target _ _ text.data steps0 hloop
    cases steps0 with
    | nil =>
      simp only [Except.ok.injEq] at hok
      subst hok
      exact ⟨by simpa using hcount, by simp⟩
    | cons f r =>
      simp only [Except.ok.injEq] at hok
      subst hok
      constructor
      · simpa [List.countP_cons] using hcount
      · intro s hs hk
        rw [List.mem_cons] at hs
        rcases hs with hs | hs
        · subst hs
          simp only [withPositions_value]
          exact hval f (List.mem_cons_self _ _) (by simpa using hk)
        · exact hval s (List.mem_cons_of_mem _ hs) hk

/-- Witness for the amended C9 at the accepted input `"a\nb"`. -/
theorem C9_witness :
    ([{ kind := .INSERT_TEXT, target := .EDITOR, startLineNumber := none,
        startColumnIndex := none, value := "a" },
      { kind := .INSERT_NEWLINE, target := .EDITOR, startLineNumber := none,
        startColumnIndex := none, value := "\n" },
      { kind := .INSERT_TEXT, target := .EDITOR, startLineNumber := none,
        startColumnIndex := none, value := "b" }] : List DeltaStep).countP
        (fun s => decide (s.kind = DeltaStepKind.INSERT_NEWLINE))
      = ("a\nb" : String).data.count '\n' ∧
    ∀ s ∈ ([{ kind := .INSERT_TEXT, target := .EDITOR, startLineNumber := none,
              startColumnIndex := none, value := "a" },
            { kind := .INSERT_NEWLINE, target := .EDITOR, startLineNumber := none,
              startColumnIndex := none, value := "\n" },
            { kind := .INSERT_TEXT, target := .EDITOR, startLineNumber := none,
              startColumnIndex := none, value := "b" }] : List DeltaStep),
      s.kind = DeltaStepKind.INSERT_NEWLINE → s.value = "\n" :=
  C9_newline_steps "a\nb" .EDITOR none none none _
    (by simp [stepsForText, stepsForTextLoop, mkStep])

theorem length_dropWhile_le (p : Char → Bool) (l : List Char) :
    (l.dropWhile p).length ≤ l.length := by
  have h := congrArg List.length (List.takeWhile_append_dropWhile p l)
  simp only [List.length_append] at h
  omega

/-- `consumeWhitespace` splits off exactly the leading run of spaces. -/
theorem consumeWhitespace_eq (l : List Char) :
    consumeWhitespace l
      = (l.takeWhile (fun c => decide (c = ' ')), l.dropWhile (fun c => decide (c = ' '))) := by
  induction l with
  | nil => simp [consumeWhitespace]
  | cons c rest ih =>
    by_cases h : c = ' '
    · simp [consumeWhitespace, h, List.takeWhile_cons, List.dropWhile_cons, ih]
    · simp [consumeWhitespace, h, List.takeWhile_cons, List.dropWhile_cons]

/-- The maximal runs of one or more consecutive space characters in a
character list, in scan order: each run starts at a space whose predecessor
(if any) is not a space, and extends to the last consecutive space. -/
def maximalSpaceRuns : List Char → List (List Char)
  | [] => []
  | c :: rest =>
    if c = ' ' then
      (c :: rest.takeWhile (fun c2 => decide (c2 = ' ')))
        :: maximalSpaceRuns (rest.dropWhile (fun c2 => decide (c2 = ' ')))
    else maximalSpaceRuns rest
termination_by l => l.length
decreasing_by
  · have := length_dropWhile_le (fun c2 => decide (c2 = ' ')) rest
    simp only [List.length_cons]
    omega
  · simp only [List.length_cons]
    omega

/-- `true` when the step's value contains at least one space character. -/
def valueHasSpace (s : DeltaStep) : Bool := s.value.data.any (fun c => decide (c = ' '))

@[simp] theorem valueHasSpace_withPositions (s : DeltaStep) (a b : Option Nat) :
    valueHasSpace { s with startLineNumber := a, startColumnIndex := b }
      = valueHasSpace s := rfl

/-- On input with no left paste delimiter the space-containing steps of the
scan are exactly one `INSERT_TEXT` step per maximal space run of the input,
in order, each step's value being that entire run. -/
theorem stepsForTextLoop_space_runs (target : StepTarget) (ldel rdel : Char) (cs : List Char)
    (hnol : ∀ c ∈ cs, c ≠ ldel) :
    ∀ steps, stepsForTextLoop target ldel rdel cs = .ok steps →
      (steps.filter valueHasSpace).map (fun s => s.value.data) = maximalSpaceRuns cs ∧
        ∀ s ∈ steps, valueHasSpace s → s.kind = DeltaStepKind.INSERT_TEXT := by
  induction cs using stepsForTextLoop.induct target ldel rdel with
  | case1 =>
    intro steps hok
    simp [stepsForTextLoop] at hok
    subst hok
    simp [maximalSpaceRuns]
  | case2 rest e hx ih =>
    intro steps hok
    simp [stepsForTextLoop, hx] at hok
  | case3 rest steps0 hx ih =>
    intro steps hok
    simp [stepsForTextLoop, hx] at hok
    subst hok
    obtain ⟨hruns, hkind⟩ := ih (fun c hc => hnol c (List.mem_cons_of_mem _ hc)) steps0 hx
    have hnosp : valueHasSpace (mkStep target .INSERT_NEWLINE "\n") = false := by
      simp [valueHasSpace, mkStep]
    constructor
    · rw [List.filter_cons_of_neg (by simp [hnosp]), hruns, maximalSpaceRuns]
      simp
    · intro s hs hsp
      rw [List.mem_cons] at hs
      rcases hs with hs | hs
      · subst hs; rw [hnosp] at hsp; exact absurd hsp (by simp)
      · exact hkind s hs hsp
  | case4 rest e hx hne ih =>
    intro steps hok
    simp [stepsForTextLoop, hx] at hok
  | case5 rest steps0 hx hne ih =>
    intro steps hok
    simp [stepsForTextLoop, hx] at hok
    subst hok
    obtain ⟨hruns, hkind⟩ := ih (fun c hc => hnol c (by
      apply List.mem_cons_of_mem
      rw [← consumeWhitespace_append rest]
      exact List.mem_append_right _ hc)) steps0 hx
    have hsp : valueHasSpace
        (mkStep target .INSERT_TEXT (String.mk (' ' :: (consumeWhitespace rest).1))) = true := by
      simp [valueHasSpace, mkStep]
    constructor
    · rw [List.filter_cons_of_pos (by simp [hsp]), List.map_cons, hruns, maximalSpaceRuns]
      simp only [if_pos rfl, mkStep_value, List.cons.injEq]
      rw [consumeWhitespace_eq rest]
      simp
    · intro s hs hsp2
      rw [List.mem_cons] at hs
      rcases hs with hs | hs
      · subst hs; rfl
      · exact hkind s hs hsp2
  | case6 rest e hp hn1 hn2 =>
    exact absurd rfl (hnol ldel (List.mem_cons_self _ _))
  | case7 rest q hp e hx hn1 hn2 ih =>
    exact absurd rfl (hnol ldel (List.mem_cons_self _ _))
  | case8 rest q hp steps0 hx hn1 hn2 ih =>
    exact absurd rfl (hnol ldel (List.mem_cons_self _ _))
  | case9 char rest hn1 hn2 hn3 e hx ih =>
    intro steps hok
    simp [stepsForTextLoop, hn1, hn2, hn3, hx] at hok
  | case10 char rest hn1 hn2 hn3 steps0 hx ih =>
    intro steps hok
    simp [stepsForTextLoop, hn1, hn2, hn3, hx] at hok
    subst hok
    obtain ⟨hruns, hkind⟩ := ih (fun c hc => hnol c (List.mem_cons_of_mem _ hc)) steps0 hx
    have hnosp : valueHasSpace (mkStep target .INSERT_TEXT (String.mk [char])) = false := by
      simp [valueHasSpace, mkStep, hn2]
    constructor
    · rw [List.filter_cons_of_neg (by simp [hnosp]), hruns, maximalSpaceRuns, if_neg hn2]
    · intro s hs hsp
      rw [List.mem_cons] at hs
      rcases hs with hs | hs
      · subst hs; rw [hnosp] at hsp; exact absurd hsp (by simp)
      · exact hkind s hs hsp

/-- C2 counterexample: with default delimiters the input `"«a b»"` contains
one maximal space run (the space between `a` and `b`), yet tokenization
yields no `INSERT_TEXT` step at all — the run is absorbed into the single
`INSERT_PASTED_TEXT` step, whose value `"a b"` is not the run. -/
theorem C2_counterexample :
    stepsForText "«a b»" .EDITOR none none none =
      .ok [{ kind := .INSERT_PASTED_TEXT, target := .EDITOR,
             startLineNumber := none, startColumnIndex := none, value := "a b" }] ∧
    maximalSpaceRuns ("«a b»" : String).data = [[' ']] ∧
    (([{ kind := .INSERT_PASTED_TEXT, target := .EDITOR,
         startLineNumber := none, startColumnIndex := none,
         value := "a b" }] : List DeltaStep).filter valueHasSpace).map
        (fun s => s.value.data) ≠ [[' ']] := by
  refine ⟨?_, ?_, by decide⟩
  · simp [stepsForText, stepsForTextLoop, consumePaste, mkStep]
  · simp [maximalSpaceRuns]

/-- C2 (amended to delimiter-free inputs): for every input text containing
neither paste delimiter character, the steps whose value contains a space
are exactly one `INSERT_TEXT` step per maximal run of one or more
consecutive spaces of the input, in order, each step's value being the
entire run — never one step per space. -/
theorem C2_space_runs_single_step (text : String) (target : StepTarget)
    (sl sc : Option Nat) (dels : Option (Char × Char))
    (hno : ∀ c ∈ text.data,
      c ≠ (dels.getD ('«', '»')).1 ∧ c ≠ (dels.getD ('«', '»')).2) :
    ∃ steps, stepsForText text target sl sc dels = .ok steps ∧
      (steps.filter valueHasSpace).map (fun s => s.value.data)
          = maximalSpaceRuns text.data ∧
        ∀ s ∈ steps, valueHasSpace s → s.kind = DeltaStepKind.INSERT_TEXT := by
  obtain ⟨steps0, hok⟩ : ∃ steps0, stepsForTextLoop target (dels.getD ('«', '»')).1
      (dels.getD ('«', '»')).2 text.data = .ok steps0 := by
    obtain ⟨steps0, hok, -⟩ :=
      stepsForTextLoop_values target (dels.getD ('«', '»')).1 (dels.getD ('«', '»')).2
        text.data (fun c hc => (hno c hc).1)
    exact ⟨steps0, hok⟩
  obtain ⟨hruns, hkind⟩ :=
    stepsForTextLoop_space_runs target (dels.getD ('«', '»')).1 (dels.getD ('«', '»')).2
      text.data (fun c hc => (hno c hc).1) steps0 hok
  cases steps0 with
  | nil =>
    refine ⟨[], by simp [stepsForText, hok], by simpa using hruns, by simp⟩
  | cons f r =>
    refine ⟨{ f with startLineNumber := sl, startColumnIndex := sc } :: r,
      by simp [stepsForText, hok], ?_, ?_⟩
    · cases hsp : valueHasSpace f with
      | false =>
        rw [List.filter_cons_of_neg (by simp [hsp])]
        rw [List.filter_cons_of_neg (by simp [hsp])] at hruns
        exact hruns
      | true =>
        rw [List.filter_cons_of_pos (by simp [hsp])]
        rw [List.filter_cons_of_pos (by simp [hsp])] at hruns
        simpa using hruns
    · intro s hs hsp
      rw [List.mem_cons] at hs
      rcases hs with hs | hs
      · subst hs
        have := hkind f (List.mem_cons_self _ _) (by simpa using hsp)
        simpa using this
      · exact hkind s (List.mem_cons_of_mem _ hs) hsp

/-- Witness for the amended C2 at the delimiter-free input `"a  b"` (one
maximal run of two spaces). -/
theorem C2_witness :
    ∃ steps, stepsForText "a  b" .EDITOR none none none = .ok steps ∧
      (steps.filter valueHasSpace).map (fun s => s.value.data)
          = maximalSpaceRuns ("a  b" : String).data ∧
        ∀ s ∈ steps, valueHasSpace s → s.kind = DeltaStepKind.INSERT_TEXT :=
  C2_space_runs_single_step "a  b" .EDITOR none none none (by decide)

/-- `consumePaste` on a clean body (no newline, no right delimiter) followed
by the right delimiter consumes exactly the body and the delimiter. -/
theorem consumePaste_clean (r : Char) (body rest : List Char) (hr : r ≠ '\n')
    (hb : ∀ c ∈ body, c ≠ '\n' ∧ c ≠ r) :
    consumePaste r (body ++ r :: rest) = .ok (body, rest) := by
  induction body with
  | nil =>
    simp [consumePaste, if_neg hr]
  | cons c tl ih =>
    obtain ⟨hcn, hcr⟩ := hb c (List.mem_cons_self _ _)
    simp only [List.cons_append, consumePaste, if_neg hcn, if_neg hcr, List.append_eq]
    rw [ih fun x hx => hb x (List.mem_cons_of_mem _ hx)]

/-- C3: for every string `body` containing no newline and no right-delimiter
character (body may be empty), tokenizing `"«" ++ body ++ "»"` with the
default delimiters yields exactly one step: an `INSERT_PASTED_TEXT` step
whose value is `body`, with both delimiter characters consumed and neither
included in the value. -/
theorem C3_paste_region_single_step (body : String) (target : StepTarget)
    (sl sc : Option Nat)
    (hb : ∀ c ∈ body.data, c ≠ '\n' ∧ c ≠ '»') :
    stepsForText ("«" ++ body ++ "»") target sl sc none =
      .ok [{ kind := .INSERT_PASTED_TEXT, target := target,
             startLineNumber := sl, startColumnIndex := sc, value := body }] := by
  have hdata : ("«" ++ body ++ "»" : String).data = '«' :: (body.data ++ '»' :: []) := by
    simp [String.data_append]
  have hloop : stepsForTextLoop target (Option.getD (none : Option (Char × Char)) ('«', '»')).1
      (Option.getD (none : Option (Char × Char)) ('«', '»')).2
      ("«" ++ body ++ "»" : String).data
      = .ok [mkStep target .INSERT_PASTED_TEXT body] := by
    show stepsForTextLoop target '«' '»' ("«" ++ body ++ "»" : String).data = _
    rw [hdata, stepsForTextLoop_paste_ok target '«' '»' (body.data ++ '»' :: [])
        (by decide) (by decide) (body.data, [])
        (consumePaste_clean '»' body.data [] (by decide) hb)]
    simp [stepsForTextLoop]
  rw [stepsForText, hloop]
  rfl

/-- Witness for C3 at `body = "abc"`: the spec's concrete example
`stepsForText "«abc»"` yields exactly one `INSERT_PASTED_TEXT` step with
value `"abc"`. -/
theorem C3_witness :
    stepsForText "«abc»" .EDITOR none none none =
      .ok [{ kind := .INSERT_PASTED_TEXT, target := .EDITOR,
             startLineNumber := none, startColumnIndex := none, value := "abc" }] := by
  have h := C3_paste_region_single_step "abc" .EDITOR none none (by decide)
  have e : ("«" ++ "abc" ++ "»" : String) = "«abc»" := by decide
  rw [e] at h
  exact h

/-- C4: the paste scan entered after consuming a left paste delimiter fails
with the "unterminated paste" error exactly when the remaining input
contains neither a newline nor the right delimiter (so the input ends before
a right delimiter is found), and fails with the "newline in paste" error
exactly when a newline occurs before the first right delimiter; because the
result is an `Except`, an error excludes any step sequence, and
`stepsForText` propagates it at tokenization time, as the spec's two
concrete examples show. -/
theorem C4_paste_error_characterization :
    (∀ (r : Char) (l : List Char), r ≠ '\n' →
      ((consumePaste r l = .error .unterminatedPaste ↔ '\n' ∉ l ∧ r ∉ l) ∧
       (consumePaste r l = .error .newlineInPaste ↔
         '\n' ∈ l.takeWhile (fun c => decide (¬c = r))))) ∧
    stepsForText "«abc" .EDITOR none none none = .error .unterminatedPaste ∧
    stepsForText "«ab\nc»" .EDITOR none none none = .error .newlineInPaste := by
  refine ⟨?_, ?_, ?_⟩
  · intro r l hr
    induction l with
    | nil =>
      constructor
      · simp [consumePaste]
      · simp [consumePaste]
    | cons c rest ih =>
      obtain ⟨ih1, ih2⟩ := ih
      by_cases hn : c = '\n'
      · subst hn
        constructor
        · simp [consumePaste]
        · have hcr : ¬('\n' = r) := fun h => hr h.symm
          simp [consumePaste, List.takeWhile_cons, hcr]
      · by_cases hcr : c = r
        · subst hcr
          constructor
          · simp [consumePaste, if_neg hn]
          · simp [consumePaste, if_neg hn, List.takeWhile_cons]
        · have hmn : ('\n' ∈ c :: rest) ↔ ('\n' ∈ rest) := by
            rw [List.mem_cons]
            constructor
            · rintro (h | h)
              · exact absurd h.symm hn
              · exact h
            · exact Or.inr
          have hmr : (r ∈ c :: rest) ↔ (r ∈ rest) := by
            rw [List.mem_cons]
            constructor
            · rintro (h | h)
              · exact absurd h.symm hcr
              · exact h
            · exact Or.inr
          have htk : ('\n' ∈ List.takeWhile (fun x => decide (¬x = r)) (c :: rest))
              ↔ ('\n' ∈ List.takeWhile (fun x => decide (¬x = r)) rest) := by
            rw [List.takeWhile_cons]
            have hd : (decide (¬c = r)) = true := by simp [hcr]
            rw [hd, if_pos rfl, List.mem_cons]
            constructor
            · rintro (h | h)
              · exact absurd h.symm hn
              · exact h
            · exact Or.inr
          constructor
          · rw [hmn, hmr, ← ih1]
            simp only [consumePaste, if_neg hn, if_neg hcr]
            cases hq : consumePaste r rest <;> simp
          · rw [htk, ← ih2]
            simp only [consumePaste, if_neg hn, if_neg hcr]
            cases hq : consumePaste r rest <;> simp
  · simp [stepsForText, stepsForTextLoop, consumePaste]
  · simp [stepsForText, stepsForTextLoop, consumePaste]

/-- Witness for C4: the characterization applied at the default right
delimiter and the remaining inputs `"abc"` (neither newline nor delimiter:
unterminated) and `"ab\nc»"` (newline before the delimiter). -/
theorem C4_witness :
    consumePaste '»' ("abc" : String).data = .error .unterminatedPaste ∧
    consumePaste '»' ("ab\nc»" : String).data = .error .newlineInPaste := by
  constructor
  · exact ((C4_paste_error_characterization.1 '»' ("abc" : String).data
      (by decide)).1).mpr (by decide)
  · exact ((C4_paste_error_characterization.1 '»' ("ab\nc»" : String).data
      (by decide)).2).mpr (by decide)

/-- The delay profile exactly as the spec's words state it, for comparison
with the source's `lookupDelays`: `INSERT_NEWLINE` → endDelay 60 and no
startDelay; `INSERT_PASTED_TEXT` → startDelay 300 / endDelay 100 regardless
of value length; a single-character value → endDelay 110 for a space,
startDelay 80 / endDelay 60 for `(` or `)`, endDelay 60 for any other single
character; a value of length ≠ 1 → the empty delay record. -/
def delaysSpec (step : DeltaStep) : Delays :=
  match step.kind with
  | .INSERT_NEWLINE => { endDelay := some 60 }
  | .INSERT_PASTED_TEXT => { startDelay := some 300, endDelay := some 100 }
  | _ =>
    match step.value.data with
    | [c] =>
      if c = ' ' then { endDelay := some 110 }
      else if c = '(' ∨ c = ')' then { startDelay := some 80, endDelay := some 60 }
      else { endDelay := some 60 }
    | _ => {}

/-- C6: `lookupDelays` returns, for every delta step, exactly the delay
profile the spec's table describes (`delaysSpec`). -/
theorem C6_lookupDelays_profile (step : DeltaStep) :
    lookupDelays step = delaysSpec step := by
  obtain ⟨kind, target, sl, sc, value⟩ := step
  cases kind with
  | INSERT_NEWLINE => rfl
  | INSERT_PASTED_TEXT => rfl
  | INSERT_TEXT =>
    obtain ⟨data⟩ := value
    match data with
    | [] => rfl
    | a :: b :: t => rfl
    | [c] =>
      by_cases h1 : c = ' '
      · subst h1; rfl
      · by_cases h2 : c = '\n'
        · subst h2; rfl
        · by_cases h3 : c = '('
          · subst h3; rfl
          · by_cases h4 : c = ')'
            · subst h4; rfl
            · have hor : ¬(c = '(' ∨ c = ')') := by
                rintro (h | h)
                · exact h3 h
                · exact h4 h
              simp only [lookupDelays, delaysSpec, DELAY_CHARACTERS,
                if_neg h1, if_neg h2, if_neg h3, if_neg h4, if_neg hor,
                Option.getD_none]
  | SET_BROWSER_CONTENT =>
    obtain ⟨data⟩ := value
    match data with
    | [] => rfl
    | a :: b :: t => rfl
    | [c] =>
      by_cases h1 : c = ' '
      · subst h1; rfl
      · by_cases h2 : c = '\n'
        · subst h2; rfl
        · by_cases h3 : c = '('
          · subst h3; rfl
          · by_cases h4 : c = ')'
            · subst h4; rfl
            · have hor : ¬(c = '(' ∨ c = ')') := by
                rintro (h | h)
                · exact h3 h
                · exact h4 h
              simp only [lookupDelays, delaysSpec, DELAY_CHARACTERS,
                if_neg h1, if_neg h2, if_neg h3, if_neg h4, if_neg hor,
                Option.getD_none]

@[simp] theorem changeTarget_fst_lineNumber (st : PlayState) (s : DeltaStep) :
    (changeTarget st s).1.lineNumber = st.lineNumber := by
  unfold changeTarget
  split <;> rfl

@[simp] theorem changeTarget_fst_columnIndex (st : PlayState) (s : DeltaStep) :
    (changeTarget st s).1.columnIndex = st.columnIndex := by
  unfold changeTarget
  split <;> rfl

@[simp] theorem changeTarget_fst_newRepl (st : PlayState) (s : DeltaStep) :
    (changeTarget st s).1.newRepl = st.newRepl := by
  unfold changeTarget
  split <;> rfl

/-- C7 counterexample: a delta step of kind `SET_BROWSER_CONTENT` with
target `EDITOR` (an invalid combination the engine nevertheless processes in
its browser branch) leaves the cursor untouched, whereas the claim's "every
other kind" case demands `columnIndex` advance by the value's length. -/
theorem C7_counterexample :
    (applyStep { lineNumber := 1, columnIndex := 1, newRepl := "", currentTarget := none }
        (.delta { kind := .SET_BROWSER_CONTENT, target := .EDITOR, startLineNumber := none,
                  startColumnIndex := none, value := "x" })).1.columnIndex = 1 ∧
    1 + ("x" : String).length ≠ 1 := by
  constructor
  · rfl
  · decide

/-- C7 (amended to the three insert kinds): the playback cursor starts at
line 1, column 1, and an `EDITOR`-targeted delta step without explicit
coordinates and of kind other than `SET_BROWSER_CONTENT` advances the cursor
as the claim says: `INSERT_NEWLINE` increments the line and resets the
column to 1; the other kinds add the value's length to the column and leave
the line unchanged. -/
theorem C7_cursor_rules (script : DemoScript) (st : PlayState) (s : DeltaStep)
    (ht : s.target = .EDITOR) (hl : s.startLineNumber = none)
    (hc : s.startColumnIndex = none) (hk : s.kind ≠ .SET_BROWSER_CONTENT) :
    (initPlayState script).lineNumber = 1 ∧ (initPlayState script).columnIndex = 1 ∧
    (s.kind = .INSERT_NEWLINE →
      (applyStep st (.delta s)).1.lineNumber = st.lineNumber + 1 ∧
      (applyStep st (.delta s)).1.columnIndex = 1) ∧
    (s.kind ≠ .INSERT_NEWLINE →
      (applyStep st (.delta s)).1.lineNumber = st.lineNumber ∧
      (applyStep st (.delta s)).1.columnIndex = st.columnIndex + s.value.length) := by
  refine ⟨rfl, rfl, ?_, ?_⟩
  · intro hnl
    obtain ⟨kind, target, sl, sc, value⟩ := s
    simp only at hnl ht hl hc
    subst hnl; subst ht; subst hl; subst hc
    simp [applyStep]
  · intro hnl
    obtain ⟨kind, target, sl, sc, value⟩ := s
    simp only at hnl ht hl hc hk
    subst ht; subst hl; subst hc
    cases kind with
    | INSERT_NEWLINE => exact absurd rfl hnl
    | SET_BROWSER_CONTENT => exact absurd rfl hk
    | INSERT_TEXT => simp [applyStep]
    | INSERT_PASTED_TEXT => simp [applyStep]

/-- Witness for the amended C7: a concrete `INSERT_NEWLINE` step at cursor
(2, 7) moves it to (3, 1), and a concrete `INSERT_TEXT "ab"` step at (2, 7)
moves it to (2, 9). -/
theorem C7_witness :
    ((applyStep { lineNumber := 2, columnIndex := 7, newRepl := "", currentTarget := some .EDITOR }
        (.delta { kind := .INSERT_NEWLINE, target := .EDITOR, startLineNumber := none,
                  startColumnIndex := none, value := "\n" })).1.lineNumber = 2 + 1 ∧
     (applyStep { lineNumber := 2, columnIndex := 7, newRepl := "", currentTarget := some .EDITOR }
        (.delta { kind := .INSERT_NEWLINE, target := .EDITOR, startLineNumber := none,
                  startColumnIndex := none, value := "\n" })).1.columnIndex = 1) ∧
    ((applyStep { lineNumber := 2, columnIndex := 7, newRepl := "", currentTarget := some .EDITOR }
        (.delta { kind := .INSERT_TEXT, target := .EDITOR, startLineNumber := none,
                  startColumnIndex := none, value := "ab" })).1.lineNumber = 2 ∧
     (applyStep { lineNumber := 2, columnIndex := 7, newRepl := "", currentTarget := some .EDITOR }
        (.delta { kind := .INSERT_TEXT, target := .EDITOR, startLineNumber := none,
                  startColumnIndex := none, value := "ab" })).1.columnIndex
        = 7 + ("ab" : String).length) :=
  ⟨(C7_cursor_rules (DemoScript.mk [] "" "" "" "") _ _ rfl rfl rfl
      (by simp)).2.2.1 rfl,
   (C7_cursor_rules (DemoScript.mk [] "" "" "" "") _ _ rfl rfl rfl
      (by simp)).2.2.2 (by simp)⟩

@[simp] theorem isPaneMutation_sleepEv (d : Nat) :
    (PlayEvent.sleepEv d).isPaneMutation = false := rfl

@[simp] theorem isPaneMutation_setTargetEv (t : StepTarget) :
    (PlayEvent.setTargetEv t).isPaneMutation = false := rfl

@[simp] theorem isPaneMutation_setBrowserContentEv (v : String) :
    (PlayEvent.setBrowserContentEv v).isPaneMutation = true := rfl

@[simp] theorem isPaneMutation_executeEditsEv (a b : Nat) (v : String) :
    (PlayEvent.executeEditsEv a b v).isPaneMutation = true := rfl

@[simp] theorem isPaneMutation_additionDecorationEv (a b n : Nat) :
    (PlayEvent.additionDecorationEv a b n).isPaneMutation = true := rfl

@[simp] theorem isPaneMutation_fakeCursorDecorationEv (a b n : Nat) :
    (PlayEvent.fakeCursorDecorationEv a b n).isPaneMutation = true := rfl

@[simp] theorem isPaneMutation_setReplContentEv (v : String) :
    (PlayEvent.setReplContentEv v).isPaneMutation = true := rfl

@[simp] theorem isTargetSignal_sleepEv (d : Nat) :
    (PlayEvent.sleepEv d).isTargetSignal = false := rfl

@[simp] theorem isTargetSignal_setTargetEv (t : StepTarget) :
    (PlayEvent.setTargetEv t).isTargetSignal = true := rfl

@[simp] theorem isTargetSignal_setBrowserContentEv (v : String) :
    (PlayEvent.setBrowserContentEv v).isTargetSignal = false := rfl

@[simp] theorem isTargetSignal_executeEditsEv (a b : Nat) (v : String) :
    (PlayEvent.executeEditsEv a b v).isTargetSignal = false := rfl

@[simp] theorem isTargetSignal_additionDecorationEv (a b n : Nat) :
    (PlayEvent.additionDecorationEv a b n).isTargetSignal = false := rfl

@[simp] theorem isTargetSignal_fakeCursorDecorationEv (a b n : Nat) :
    (PlayEvent.fakeCursorDecorationEv a b n).isTargetSignal = false := rfl

@[simp] theorem isTargetSignal_setReplContentEv (v : String) :
    (PlayEvent.setReplContentEv v).isTargetSignal = false := rfl

/-- A start delay produced by the delay policy is only ever 300ms (paste) or
80ms (parenthesis); in particular never 100ms. -/
theorem lookupDelays_startDelay (step : DeltaStep) (d : Nat)
    (h : (lookupDelays step).startDelay = some d) : d = 300 ∨ d = 80 := by
  cases hk : step.kind with
  | INSERT_NEWLINE =>
    simp only [lookupDelays, hk] at h
    simp [DELAY_CHARACTERS] at h
  | INSERT_PASTED_TEXT =>
    simp only [lookupDelays, hk] at h
    simp [PASTE_DELAYS] at h
    exact Or.inl h.symm
  | INSERT_TEXT =>
    simp only [lookupDelays, hk] at h
    match hd : step.value.data with
    | [] => rw [hd] at h; simp at h
    | a :: b :: t => rw [hd] at h; simp at h
    | [c] =>
      rw [hd] at h
      by_cases h1 : c = ' '
      · subst h1; simp [DELAY_CHARACTERS] at h
      · by_cases h2 : c = '\n'
        · subst h2; simp [DELAY_CHARACTERS] at h
        · by_cases h3 : c = '('
          · subst h3; simp [DELAY_CHARACTERS] at h; exact Or.inr h.symm
          · by_cases h4 : c = ')'
            · subst h4; simp [DELAY_CHARACTERS] at h; exact Or.inr h.symm
            · simp [DELAY_CHARACTERS, h1, h2, h3, h4] at h
  | SET_BROWSER_CONTENT =>
    simp only [lookupDelays, hk] at h
    match hd : step.value.data with
    | [] => rw [hd] at h; simp at h
    | a :: b :: t => rw [hd] at h; simp at h
    | [c] =>
      rw [hd] at h
      by_cases h1 : c = ' '
      · subst h1; simp [DELAY_CHARACTERS] at h
      · by_cases h2 : c = '\n'
        · subst h2; simp [DELAY_CHARACTERS] at h
        · by_cases h3 : c = '('
          · subst h3; simp [DELAY_CHARACTERS] at h; exact Or.inr h.symm
          · by_cases h4 : c = ')'
            · subst h4; simp [DELAY_CHARACTERS] at h; exact Or.inr h.symm
            · simp [DELAY_CHARACTERS, h1, h2, h3, h4] at h

theorem delayEvents_no_signal (o : Option Nat) :
    ∀ e ∈ delayEvents o, e.isTargetSignal = false := by
  cases o with
  | none => simp [delayEvents]
  | some d =>
    intro e he
    simp [delayEvents] at he
    subst he
    rfl

/-- The prefix of non-mutations of `delayEvents o ++ (x :: xs)` with `x` a
pane mutation is exactly `delayEvents o`. -/
theorem takeWhile_delay_prefix (o : Option Nat) (x : PlayEvent) (xs : List PlayEvent)
    (hx : x.isPaneMutation = true) :
    (delayEvents o ++ x :: xs).takeWhile (fun e2 => !e2.isPaneMutation)
      = delayEvents o := by
  cases o with
  | none => simp [delayEvents, List.takeWhile_cons, hx]
  | some d => simp [delayEvents, List.takeWhile_cons, hx]

theorem mem_ite_singleton {α : Type} {P : Prop} [inst : Decidable P] {a x : α}
    (hx : x ∈ (if P then [a] else ([] : List α))) : x = a := by
  split at hx
  · simpa using hx
  · simp at hx

/-- The common shape of an `EDITOR`-targeted insert iteration: given that the
iteration's events and final target reduce to the editor branch of the loop
body, its tail after the target-switch prefix carries no signal and no 100ms
sleep before the first pane mutation. -/
theorem insert_editor_tail (st : PlayState) (s : DeltaStep)
    (htr : (applyStep st (.delta s)).2 = (changeTarget st s).2 ++
      (delayEvents (lookupDelays s).startDelay ++
        (PlayEvent.executeEditsEv (s.startLineNumber.getD st.lineNumber)
            (s.startColumnIndex.getD st.columnIndex) s.value ::
          ((if s.value.trim.length ≠ 0 then
              [PlayEvent.additionDecorationEv (s.startLineNumber.getD st.lineNumber)
                (s.startColumnIndex.getD st.columnIndex) s.value.length]
            else []) ++
           [PlayEvent.fakeCursorDecorationEv (s.startLineNumber.getD st.lineNumber)
              (s.startColumnIndex.getD st.columnIndex) s.value.length])) ++
        delayEvents (lookupDelays s).endDelay))
    (hst : (applyStep st (.delta s)).1.currentTarget
      = (changeTarget st s).1.currentTarget) :
    ∃ tail, (applyStep st (.delta s)).2 = (changeTarget st s).2 ++ tail ∧
      (∀ e ∈ tail, e.isTargetSignal = false) ∧
      (∀ e ∈ tail.takeWhile (fun e2 => !e2.isPaneMutation), e ≠ PlayEvent.sleepEv 100) ∧
      (applyStep st (.delta s)).1.currentTarget = (changeTarget st s).1.currentTarget := by
  refine ⟨_, htr, ?_, ?_, hst⟩
  · intro e he
    rcases List.mem_append.mp he with he | he
    · rcases List.mem_append.mp he with he | he
      · exact delayEvents_no_signal _ e he
      · rcases List.mem_cons.mp he with rfl | he
        · rfl
        · rcases List.mem_append.mp he with he | he
          · rw [mem_ite_singleton he]; rfl
          · rw [List.mem_singleton.mp he]; rfl
    · exact delayEvents_no_signal _ e he
  · rw [List.append_assoc, List.cons_append, takeWhile_delay_prefix _ _ _ (by simp)]
    intro e he
    rcases ho : (lookupDelays s).startDelay with - | d
    · rw [ho] at he; simp [delayEvents] at he
    · rw [ho] at he
      simp [delayEvents] at he
      subst he
      intro hcontra
      cases hcontra
      rcases lookupDelays_startDelay s _ ho with h | h <;> simp at h

/-- The common shape of a `REPL`-targeted insert iteration, analogous to
`insert_editor_tail`. -/
theorem insert_repl_tail (st : PlayState) (s : DeltaStep)
    (htr : (applyStep st (.delta s)).2 = (changeTarget st s).2 ++
      (delayEvents (lookupDelays s).startDelay ++
        [PlayEvent.setReplContentEv (st.newRepl ++ s.value)] ++
        delayEvents (lookupDelays s).endDelay))
    (hst : (applyStep st (.delta s)).1.currentTarget
      = (changeTarget st s).1.currentTarget) :
    ∃ tail, (applyStep st (.delta s)).2 = (changeTarget st s).2 ++ tail ∧
      (∀ e ∈ tail, e.isTargetSignal = false) ∧
      (∀ e ∈ tail.takeWhile (fun e2 => !e2.isPaneMutation), e ≠ PlayEvent.sleepEv 100) ∧
      (applyStep st (.delta s)).1.currentTarget = (changeTarget st s).1.currentTarget := by
  refine ⟨_, htr, ?_, ?_, hst⟩
  · intro e he
    rcases List.mem_append.mp he with he | he
    · rcases List.mem_append.mp he with he | he
      · exact delayEvents_no_signal _ e he
      · rw [List.mem_singleton.mp he]; rfl
    · exact delayEvents_no_signal _ e he
  · rw [List.append_assoc, List.singleton_append, takeWhile_delay_prefix _ _ _ (by simp)]
    intro e he
    rcases ho : (lookupDelays s).startDelay with - | d
    · rw [ho] at he; simp [delayEvents] at he
    · rw [ho] at he
      simp [delayEvents] at he
      subst he
      intro hcontra
      cases hcontra
      rcases lookupDelays_startDelay s _ ho with h | h <;> simp at h

/-- Dissection of one delta-step iteration of the playback loop: its event
list is the target-switch prefix followed by a tail that contains no
active-pane signal; every tail event before the first pane mutation is the
policy's start-delay sleep, never a 100ms sleep; and the iteration's final
`currentTarget` is the one left by `changeTarget`. -/
theorem applyStep_delta_tail (st : PlayState) (s : DeltaStep) :
    ∃ tail, (applyStep st (.delta s)).2 = (changeTarget st s).2 ++ tail ∧
      (∀ e ∈ tail, e.isTargetSignal = false) ∧
      (∀ e ∈ tail.takeWhile (fun e2 => !e2.isPaneMutation), e ≠ PlayEvent.sleepEv 100) ∧
      (applyStep st (.delta s)).1.currentTarget = (changeTarget st s).1.currentTarget := by
  cases hk : s.kind with
  | SET_BROWSER_CONTENT =>
    refine ⟨[.setBrowserContentEv "", .sleepEv 500, .setBrowserContentEv s.value,
      .sleepEv 200], ?_, ?_, ?_, ?_⟩
    · simp [applyStep, hk]
    · intro e he
      simp at he
      rcases he with he | he | he | he <;> subst he <;> rfl
    · simp [List.takeWhile_cons]
    · simp [applyStep, hk]
  | INSERT_TEXT =>
    by_cases htg : s.target = .EDITOR
    · exact insert_editor_tail st s (by simp [applyStep, hk, htg]) (by simp [applyStep, hk, htg])
    · exact insert_repl_tail st s (by simp [applyStep, hk, htg]) (by simp [applyStep, hk, htg])
  | INSERT_NEWLINE =>
    by_cases htg : s.target = .EDITOR
    · exact insert_editor_tail st s (by simp [applyStep, hk, htg]) (by simp [applyStep, hk, htg])
    · exact insert_repl_tail st s (by simp [applyStep, hk, htg]) (by simp [applyStep, hk, htg])
  | INSERT_PASTED_TEXT =>
    by_cases htg : s.target = .EDITOR
    · exact insert_editor_tail st s (by simp [applyStep, hk, htg]) (by simp [applyStep, hk, htg])
    · exact insert_repl_tail st s (by simp [applyStep, hk, htg]) (by simp [applyStep, hk, htg])

/-- C8: during playback, a delta step whose target differs from the current
target (initially `none`) updates the current target, emits exactly one
active-pane signal followed by the 100ms suspension, both before any pane
mutation of that step; a delta step whose target equals the current target
emits no signal and no 100ms suspension before acting on the step; and a
SLEEP step never changes the current target or emits a signal. -/
theorem C8_target_switch_protocol (st : PlayState) (s : DeltaStep) (d : Nat) :
    (st.currentTarget ≠ some s.target →
      ((applyStep st (.delta s)).2.take 2
          = [PlayEvent.setTargetEv s.target, PlayEvent.sleepEv 100] ∧
       (∀ e ∈ (applyStep st (.delta s)).2.drop 2, e.isTargetSignal = false) ∧
       (applyStep st (.delta s)).1.currentTarget = some s.target)) ∧
    (st.currentTarget = some s.target →
      ((∀ e ∈ (applyStep st (.delta s)).2, e.isTargetSignal = false) ∧
       (applyStep st (.delta s)).1.currentTarget = st.currentTarget ∧
       ∀ e ∈ (applyStep st (.delta s)).2.takeWhile (fun e2 => !e2.isPaneMutation),
         e ≠ PlayEvent.sleepEv 100)) ∧
    applyStep st (.sleepStep d) = (st, [PlayEvent.sleepEv d]) := by
  obtain ⟨tail, htr, hsig, htw, hct⟩ := applyStep_delta_tail st s
  refine ⟨?_, ?_, rfl⟩
  · intro hne
    have hev : changeTarget st s
        = ({ st with currentTarget := some s.target },
           [PlayEvent.setTargetEv s.target, PlayEvent.sleepEv 100]) := by
      unfold changeTarget
      rw [if_neg hne]
    refine ⟨?_, ?_, ?_⟩
    · rw [htr, hev]
      rfl
    · rw [htr, hev]
      exact hsig
    · rw [hct, hev]
  · intro heq
    have hev : changeTarget st s = (st, []) := by
      unfold changeTarget
      rw [if_pos heq]
    refine ⟨?_, ?_, ?_⟩
    · rw [htr, hev]
      exact hsig
    · rw [hct, hev]
    · rw [htr, hev]
      exact htw

/-- Witness for C8: starting with no current target, a concrete
`INSERT_TEXT "a"` step targeted at the editor first emits the active-pane
signal for EDITOR and the 100ms sleep, and leaves EDITOR as the current
target. -/
theorem C8_witness :
    (applyStep { lineNumber := 1, columnIndex := 1, newRepl := "", currentTarget := none }
        (.delta { kind := .INSERT_TEXT, target := .EDITOR, startLineNumber := none,
                  startColumnIndex := none, value := "a" })).2.take 2
        = [PlayEvent.setTargetEv .EDITOR, PlayEvent.sleepEv 100] ∧
    (applyStep { lineNumber := 1, columnIndex := 1, newRepl := "", currentTarget := none }
        (.delta { kind := .INSERT_TEXT, target := .EDITOR, startLineNumber := none,
                  startColumnIndex := none, value := "a" })).1.currentTarget
        = some .EDITOR :=
  ⟨((C8_target_switch_protocol _ _ 0).1 (by simp)).1,
   ((C8_target_switch_protocol _ _ 0).1 (by simp)).2.2⟩

/-- C10: for every `EDITOR`-targeted insert step at any position in the
script, a present `startLineNumber`/`startColumnIndex` resets the
corresponding cursor coordinate before the insertion range is computed,
while an absent coordinate inherits the carried-forward cursor value: the
`executeEdits` call of the iteration uses exactly
`startLineNumber.getD lineNumber` / `startColumnIndex.getD columnIndex`,
and the post-step cursor is computed from those reset values. -/
theorem C10_explicit_coordinates_reset (st : PlayState) (s : DeltaStep)
    (ht : s.target = .EDITOR) (hk : s.kind ≠ .SET_BROWSER_CONTENT) :
    PlayEvent.executeEditsEv (s.startLineNumber.getD st.lineNumber)
        (s.startColumnIndex.getD st.columnIndex) s.value
      ∈ (applyStep st (.delta s)).2 ∧
    (s.kind = .INSERT_NEWLINE →
      (applyStep st (.delta s)).1.lineNumber
          = s.startLineNumber.getD st.lineNumber + 1 ∧
      (applyStep st (.delta s)).1.columnIndex = 1) ∧
    (s.kind ≠ .INSERT_NEWLINE →
      (applyStep st (.delta s)).1.lineNumber = s.startLineNumber.getD st.lineNumber ∧
      (applyStep st (.delta s)).1.columnIndex
          = s.startColumnIndex.getD st.columnIndex + s.value.length) := by
  cases hks : s.kind with
  | SET_BROWSER_CONTENT => exact absurd hks hk
  | INSERT_NEWLINE =>
    refine ⟨?_, fun hnl => ?_, fun hnl => absurd rfl hnl⟩
    · simp [applyStep, hks, ht]
    · constructor <;> simp [applyStep, hks, ht]
  | INSERT_TEXT =>
    refine ⟨?_, fun hnl => absurd hnl (by simp), fun hnl => ?_⟩
    · simp [applyStep, hks, ht]
    · constructor <;> simp [applyStep, hks, ht]
  | INSERT_PASTED_TEXT =>
    refine ⟨?_, fun hnl => absurd hnl (by simp), fun hnl => ?_⟩
    · simp [applyStep, hks, ht]
    · constructor <;> simp [applyStep, hks, ht]

/-- Witness for C10: at cursor (2, 7), an `INSERT_TEXT "ab"` step with an
explicit `startLineNumber = 5` and no explicit column inserts at range
(5, 7) and leaves the cursor at (5, 9). -/
theorem C10_witness :
    PlayEvent.executeEditsEv ((some 5).getD 2) ((none : Option Nat).getD 7) "ab"
        ∈ (applyStep { lineNumber := 2, columnIndex := 7, newRepl := "",
                       currentTarget := some .EDITOR }
            (.delta { kind := .INSERT_TEXT, target := .EDITOR, startLineNumber := some 5,
                      startColumnIndex := none, value := "ab" })).2 ∧
    (applyStep { lineNumber := 2, columnIndex := 7, newRepl := "",
                 currentTarget := some .EDITOR }
        (.delta { kind := .INSERT_TEXT, target := .EDITOR, startLineNumber := some 5,
                  startColumnIndex := none, value := "ab" })).1.lineNumber
      = (some 5).getD 2 ∧
    (applyStep { lineNumber := 2, columnIndex := 7, newRepl := "",
                 currentTarget := some .EDITOR }
        (.delta { kind := .INSERT_TEXT, target := .EDITOR, startLineNumber := some 5,
                  startColumnIndex := none, value := "ab" })).1.columnIndex
      = (none : Option Nat).getD 7 + ("ab" : String).length :=
  ⟨(C10_explicit_coordinates_reset _ _ rfl (by simp)).1,
   ((C10_explicit_coordinates_reset _ _ rfl (by simp)).2.2 (by simp)).1,
   ((C10_explicit_coordinates_reset _ _ rfl (by simp)).2.2 (by simp)).2⟩

end AnimatedCodeExample
